import Mathlib

/-!
# Verification of the agent-farm orchestration core

Shallow embedding of the orchestration core of the `agent-farm` repository:

* `src/orchestrator/learnings_manager.py` — the Learnings Engine
  (`LearningsManager.extract_from_project`, `_merge_learning_into_data`,
  `_update_category_perf`, `_update_rolling_avg`, `_infer_category`);
* `src/orchestrator/project_manager.py` — the Project Lifecycle State Machine
  (`ProjectManager.evaluate_active_projects`) and the Task Queue
  (`ProjectManager.get_pending_tasks_for_machine`);
* `src/agents/research_agent.py` — the viability decision inside
  `ResearchAgent._viability_check`;
* `src/orchestrator/llm_client.py` — the Inference Router (`LLMClient.complete`);
* `src/orchestrator/notion_client.py` — chunked large-value config storage
  (`set_config_value_large` / `get_config_value_large`).

Python dictionaries holding records become Lean structures; Python floats on
money/score values become `ℚ`; `dict.get(k, default)` becomes a structure field
whose "missing" value is the default; network/LLM effects become explicit
oracle parameters so that each function is pure and executable.
-/

namespace AgentFarm

/-- Python `lst[-n:]`: the last `n` elements of a list (the whole list when it
has fewer than `n` elements). -/
def lastN (n : Nat) (l : List α) : List α := l.drop (l.length - n)

/-- Python `str.lower()` (the strings involved are ASCII): lowercase every
character. -/
def pyLower (s : String) : String := ⟨s.data.map Char.toLower⟩

/-- Python `str.strip()`: drop leading and trailing whitespace. -/
def pyStrip (s : String) : String :=
  ⟨((s.data.dropWhile Char.isWhitespace).reverse.dropWhile Char.isWhitespace).reverse⟩

/-- Python `s.startswith(pre)`. -/
def pyStartsWith (s pre : String) : Bool := pre.data.isPrefixOf s.data

/-- Python `s.split(sep)[0]` for a single-character separator: everything
before the first occurrence (the whole string when the separator is absent). -/
def splitHead (s : String) (sep : Char) : String :=
  ⟨s.data.takeWhile (fun c => c ≠ sep)⟩

/-- `needle.isPrefixOf hay || (recurse on hay's tail)`: does `needle` occur
as a contiguous run inside `hay`? -/
def containsAux (needle : List Char) : List Char → Bool
  | [] => needle.isEmpty
  | c :: rest => needle.isPrefixOf (c :: rest) || containsAux needle rest

/-- Python `needle in hay` on strings: substring containment. -/
def containsSub (hay needle : String) : Bool := containsAux needle.data hay.data

/-! ## Learnings Engine data model (`learnings_manager.py`)

The persisted learnings JSON object (`EMPTY_LEARNINGS`, lines 16–31).
`viability_insights` and `meta` are flattened into the record; the comments
give the original JSON paths. -/

/-- A parsed learning JSON object returned by the LLM for a failed or
successful project (`_FAILURE_PROMPT` / `_SUCCESS_PROMPT` shapes).  Missing
keys are modelled by the defaults that `learning.get(...)` supplies; a missing
or `null` `category` is modelled by `""` (both are falsy for Python `or`). -/
structure Learning where
  category : String := ""
  failure_reason : String := ""
  lesson : String := ""
  avoid_pattern : String := ""
  cost_wasted : ℚ := 0
  why_it_worked : String := ""
  replicable_pattern : String := ""
  success_factors : List String := []
  recommended_niches : List String := []
deriving DecidableEq

/-- A project row as read from the store (`Project` fields used by the core).
`project.get("id", "")` makes a missing id the empty string, so `id : String`
with `""` for "missing".  `last_activity` is a day-resolution timestamp
(the code only ever uses `(now - last_activity).days`). -/
structure Project where
  id : String := ""
  name : String := ""
  description : String := ""
  status : String := ""
  revenue_30d : ℚ := 0
  revenue_total : ℚ := 0
  cost_total : ℚ := 0
  viability_score : Option ℚ := none
  last_activity : Option Int := none
deriving DecidableEq

/-- Entry appended to `failure_patterns` (`_merge_learning_into_data`,
lines 247–254). -/
structure FailureEntry where
  project : String
  category : String
  failure_reason : String
  lesson : String
  avoid_pattern : String
  cost_wasted : ℚ
deriving DecidableEq

/-- Entry appended to `successful_patterns` (lines 289–295). -/
structure SuccessEntry where
  project : String
  category : String
  why_it_worked : String
  replicable_pattern : String
  success_factors : List String
deriving DecidableEq

/-- Per-category stats (`category_performance` values). -/
structure CatPerf where
  avg_revenue : ℚ
  success_rate : ℚ
  count : Nat
deriving DecidableEq

/-- The persisted learnings store.  `avg_score_of_successes` /
`avg_score_of_failures` are `viability_insights.*`;
`total_projects_analyzed` / `analyzed_project_ids` are `meta.*`.
`category_performance` is an insertion-ordered association list, matching a
Python dict. -/
structure Learnings where
  successful_patterns : List SuccessEntry := []
  failure_patterns : List FailureEntry := []
  category_performance : List (String × CatPerf) := []
  avg_score_of_successes : Option ℚ := none
  avg_score_of_failures : Option ℚ := none
  market_insights : List String := []
  avoid_list : List String := []
  total_projects_analyzed : Nat := 0
  analyzed_project_ids : List String := []
deriving DecidableEq

/-- `EMPTY_LEARNINGS` (lines 16–31). -/
def emptyLearnings : Learnings := {}

/-- `LearningsManager._infer_category` (lines 408–417): scan the lowercased
description+name for the first matching category keyword. -/
def inferCategory (p : Project) : String :=
  let desc := pyLower (p.description ++ " " ++ p.name)
  match ["trading", "saas", "content", "data", "service"].find?
      (fun cat => containsSub desc cat) with
  | some cat => cat
  | none => "other"

/-- Python dict read `perf[category]` with default insertion. -/
def getPerf (perf : List (String × CatPerf)) (c : String) : CatPerf :=
  match perf.find? (fun e => e.1 = c) with
  | some e => e.2
  | none => ⟨0, 0, 0⟩

/-- Python dict write `perf[category] = v`: replace in place, else append
(insertion order preserved, as in a Python dict). -/
def setPerf (perf : List (String × CatPerf)) (c : String) (v : CatPerf) :
    List (String × CatPerf) :=
  if perf.any (fun e => e.1 = c) then
    perf.map (fun e => if e.1 = c then (c, v) else e)
  else perf ++ [(c, v)]

/-- `LearningsManager._update_category_perf` (lines 325–335): incremental mean
for revenue and success rate.  (The Python function also receives a
`viability_score` argument that its body never uses; it is dropped here.) -/
def updateCategoryPerf (d : Learnings) (category : String) (success : Bool)
    (revenue : ℚ) : Learnings :=
  let cat := getPerf d.category_performance category
  let n : ℚ := cat.count
  let cat' : CatPerf :=
    { avg_revenue := (cat.avg_revenue * n + revenue) / (n + 1)
      success_rate := (cat.success_rate * n + (if success then 1 else 0)) / (n + 1)
      count := cat.count + 1 }
  { d with category_performance := setPerf d.category_performance category cat' }

/-- `LearningsManager._update_rolling_avg` (lines 337–343): two-sample
recency-weighted average. -/
def updateRollingAvg (current : Option ℚ) (x : ℚ) : ℚ :=
  match current with
  | none => x
  | some c => (c + x) / 2

/-- The failure entry built at lines 247–254. -/
def mkFailureEntry (l : Learning) (p : Project) (category : String) : FailureEntry :=
  { project := p.name, category := category, failure_reason := l.failure_reason
    lesson := l.lesson, avoid_pattern := l.avoid_pattern, cost_wasted := l.cost_wasted }

/-- The success entry built at lines 289–295. -/
def mkSuccessEntry (l : Learning) (p : Project) (category : String) : SuccessEntry :=
  { project := p.name, category := category, why_it_worked := l.why_it_worked
    replicable_pattern := l.replicable_pattern, success_factors := l.success_factors }

/-- The ring trim applied after each pattern append (lines 257–258 and
298–299): `if len(patterns) > 20: patterns[-20:]`. -/
def trimRing (l : List α) : List α := if 20 < l.length then lastN 20 l else l

/-- The avoid-list update of lines 260–274: after the new failure entry has
been appended (and the ring trimmed), promote the stripped avoid pattern once
it has ≥ 2 case-insensitive occurrences among the stored failure entries and
is not already listed; then trim the avoid list to its last 15. -/
def updateAvoidList (avoidList : List String) (patterns : List FailureEntry)
    (l : Learning) : List String :=
  let avoidPat := pyStrip l.avoid_pattern
  if avoidPat ≠ "" then
    let existingCount :=
      (patterns.filter (fun fp => pyLower fp.avoid_pattern = pyLower avoidPat)).length
    let alreadyListed := avoidList.any (fun a => pyLower a = pyLower avoidPat)
    if 2 ≤ existingCount ∧ ¬ alreadyListed then
      let al := avoidList ++ [avoidPat]
      if 15 < al.length then lastN 15 al else al
    else avoidList
  else avoidList

/-- The `market_insights` update of lines 301–306: append each truthy,
not-yet-present recommended niche, then trim to the last 10. -/
def updateMarketInsights (insights : List String) (niches : List String) :
    List String :=
  let ins := niches.foldl
    (fun acc niche =>
      if niche ≠ "" ∧ niche ∉ acc then acc ++ [niche] else acc)
    insights
  if 10 < ins.length then lastN 10 ins else ins

/-- `learning.get("category") or self._infer_category(project)` (line 244):
the learning's category, falling back to the inferred one when missing/empty
(both falsy in Python). -/
def categoryOf (l : Learning) (p : Project) : String :=
  if l.category ≠ "" then l.category else inferCategory p

/-- `LearningsManager._merge_learning_into_data` (lines 240–323). -/
def merge_learning_into_data (d : Learnings) (l : Learning) (outcome : String)
    (p : Project) : Learnings :=
  let category := categoryOf l p
  let d :=
    if outcome = "failure" then
      let ps := trimRing (d.failure_patterns ++ [mkFailureEntry l p category])
      let d := { d with failure_patterns := ps }
      let d := { d with avoid_list := updateAvoidList d.avoid_list ps l }
      let d := updateCategoryPerf d category false p.revenue_30d
      match p.viability_score with
      | some s =>
        { d with avg_score_of_failures := some (updateRollingAvg d.avg_score_of_failures s) }
      | none => d
    else
      let ps := trimRing (d.successful_patterns ++ [mkSuccessEntry l p category])
      let d := { d with successful_patterns := ps }
      let d := { d with market_insights := updateMarketInsights d.market_insights l.recommended_niches }
      let d := updateCategoryPerf d category true p.revenue_30d
      match p.viability_score with
      | some s =>
        { d with avg_score_of_successes := some (updateRollingAvg d.avg_score_of_successes s) }
      | none => d
  { d with
    total_projects_analyzed := d.total_projects_analyzed + 1
    analyzed_project_ids :=
      if p.id ≠ "" then d.analyzed_project_ids ++ [p.id]
      else d.analyzed_project_ids }

/-- Outcome of the fallible body of `extract_from_project`'s `try` block:
either some step (the LLM call of `_extract_failure_learning` /
`_extract_success_learning`, or the merge) raises an exception, or the LLM
response parses to a learning (`some l`) or fails to parse (`none`,
`_parse_json_safe` returning `None`). -/
inductive ExtractOracle where
  | raises
  | parsed (l : Option Learning)
deriving DecidableEq

/-- Result of one `extract_from_project` call: the returned boolean, the
resulting in-memory learnings data, and whether `_save_learnings` (the write
of the persisted store) was invoked. -/
structure ExtractResult where
  returned : Bool
  data : Learnings
  saved : Bool
deriving DecidableEq

/-- `LearningsManager.extract_from_project` (lines 103–132): skip when the
(non-empty) project id was already analyzed; otherwise extract, merge and
save; on exception or parse failure return `False` without saving. -/
def extract_from_project (d : Learnings) (p : Project) (outcome : String)
    (oracle : ExtractOracle) : ExtractResult :=
  if p.id ≠ "" ∧ p.id ∈ d.analyzed_project_ids then
    ⟨false, d, false⟩
  else
    match oracle with
    | .raises => ⟨false, d, false⟩
    | .parsed none => ⟨false, d, false⟩
    | .parsed (some l) => ⟨true, merge_learning_into_data d l outcome p, true⟩

/-! ## Project Lifecycle State Machine (`project_manager.py`) -/

/-- What `evaluate_active_projects` (lines 100–148) did to one project:
whether it was scaled, whether it was archived, the value of the local
`revenue_30d` variable at decision time, and whether a corrective
`update_project_revenue` write was issued. -/
structure EvalOutcome where
  scaled : Bool
  archived : Bool
  revenueUsed : ℚ
  revenueWriteIssued : Bool
deriving DecidableEq

/-- The per-project body of `ProjectManager.evaluate_active_projects`
(lines 100–148).  `actual30d` is the ledger recomputation returned by
`notion.get_revenue_for_project(name, since_days=30)`; `now` and
`p.last_activity` are day-resolution timestamps, so `(now - last).days`
becomes integer subtraction.  The cached field is replaced by the ledger
value only when they differ by more than `0.01`. -/
def evaluate_project (scaleThreshold : ℚ) (archiveDays : Int) (now : Int)
    (p : Project) (actual30d : ℚ) : EvalOutcome :=
  let write := 1/100 < |actual30d - p.revenue_30d|
  let rev := if write then actual30d else p.revenue_30d
  if scaleThreshold ≤ rev ∧ p.status ≠ "scaling" then
    ⟨true, false, rev, write⟩
  else
    let daysSinceActivity : Int :=
      match p.last_activity with
      | some t => now - t
      | none => 999
    let shouldArchive :=
      archiveDays < daysSinceActivity ∧ rev = 0 ∧ p.status ≠ "scaling"
    ⟨false, decide shouldArchive, rev, write⟩

/-! ## Task Queue & Assignment (`project_manager.py`, lines 225–250) -/

/-- A task row as read from the store.  `(t.get("agent") or "")` makes a
missing/None agent the empty string; `t.get("priority", "medium")` makes a
missing priority `"medium"`. -/
structure Task where
  title : String := ""
  agent : String := ""
  priority : String := "medium"
  requires_human : Bool := false
deriving DecidableEq

/-- `priority_order.get(t.get("priority", "medium"), 2)` (lines 247–248):
urgent=0, high=1, medium=2, low=3, anything else 2. -/
def priorityRank (t : Task) : Nat :=
  if t.priority = "urgent" then 0
  else if t.priority = "high" then 1
  else if t.priority = "medium" then 2
  else if t.priority = "low" then 3
  else 2

/-- Insert a task into an already-sorted list, after every task of strictly
smaller rank and before every task of equal or larger rank (so that, combined
with `sortByRank`, ties keep their arrival order — the stability guarantee of
Python `list.sort`). -/
def insertByRank (x : Task) : List Task → List Task
  | [] => [x]
  | y :: ys =>
    if priorityRank y < priorityRank x then y :: insertByRank x ys
    else x :: y :: ys

/-- Stable sort by priority rank, modelling
`actionable.sort(key=lambda t: priority_order.get(...))` (line 248). -/
def sortByRank : List Task → List Task
  | [] => []
  | x :: xs => insertByRank x (sortByRank xs)

/-- `machine_name.lower() in (t.get("agent") or "").lower()` (line 235). -/
def machineMatches (machineName : String) (t : Task) : Bool :=
  containsSub (pyLower t.agent) (pyLower machineName)

/-- `ProjectManager.get_pending_tasks_for_machine` (lines 225–250).
`in_progress` and `pending` are the store query results; `Nat` subtraction is
exactly `max(0, max_concurrent - current_load)`. -/
def get_pending_tasks_for_machine (machineName : String) (maxConcurrent : Nat)
    (inProgress pending : List Task) : List Task :=
  let currentLoad := (inProgress.filter (machineMatches machineName)).length
  let availableSlots := maxConcurrent - currentLoad
  if availableSlots = 0 then []
  else
    let actionable := pending.filter (fun t => !t.requires_human)
    (sortByRank actionable).take availableSlots

/-! ## Viability decision (`research_agent.py`, lines 163–208) -/

/-- The three possible fates of a project in `ResearchAgent._viability_check`:
activated (execution tasks created from the parsed plan, status set to
`active`), archived (status set to `archived` with a recorded reason), or left
untouched when neither branch of the `if`/`elif` fires. -/
inductive ViabilityDecision where
  | activated
  | archivedProj
  | unchanged
deriving DecidableEq

/-- The branch structure of `ResearchAgent._viability_check` lines 174–208:
`if recommendation == "ACTIVATE" and overall_score >= 60: ... activate`
`elif recommendation == "REJECT" or overall_score < 60: ... archive`.
Note the literal `60`; the function reads no configuration. -/
def viabilityDecision (overallScore : ℚ) (recommendation : String) :
    ViabilityDecision :=
  if recommendation = "ACTIVATE" ∧ 60 ≤ overallScore then .activated
  else if recommendation = "REJECT" ∨ overallScore < 60 then .archivedProj
  else .unchanged

/-! ## Inference Router (`llm_client.py`) -/

/-- `LLMLevel` (lines 26–31). -/
inductive LLMLevel where
  | simple | medium | complex | cloud | claude
deriving DecidableEq

/-- One row of `MODEL_ROUTING`: the model routed to each provider tier, when
that tier is configured for the level. -/
structure Routing where
  ollama : Option String := none
  groq : Option String := none
  claude : Option String := none
deriving DecidableEq

/-- `MODEL_ROUTING` (lines 53–59). -/
def MODEL_ROUTING : LLMLevel → Routing
  | .simple => { ollama := some "llama3.2:3b", groq := some "llama-3.1-8b-instant" }
  | .medium => { ollama := some "mistral:7b", groq := some "mixtral-8x7b-32768" }
  | .complex => { ollama := some "llama3.1:8b", groq := some "llama-3.3-70b-versatile" }
  | .cloud => { groq := some "llama-3.3-70b-versatile" }
  | .claude => { claude := some "claude-haiku-4-5-20251001" }

/-- The environment one `LLMClient.complete` call runs in: the cached Ollama
availability probe, the loaded Ollama model list, and, for each provider,
whether its `complete` call returns normally (`…Completes = false` models the
call raising, after its internal retries). -/
structure RouterWorld where
  ollamaUp : Bool
  ollamaModels : List String
  ollamaCompletes : Bool
  groqKeySet : Bool
  groqCompletes : Bool
  claudeKeySet : Bool
  claudeCompletes : Bool
deriving DecidableEq

inductive Provider where
  | ollama | groq | claude
deriving DecidableEq

/-- How one `complete` call ends: a successful response from some provider,
the final `RuntimeError("No LLM provider available...")` (line 274), or an
exception propagating out of the un-guarded Claude call (line 272). -/
inductive RouterOutcome where
  | success (p : Provider)
  | noProviderAvailable
  | uncaughtError (p : Provider)
deriving DecidableEq

/-- Lines 248–251: the first loaded Ollama model whose name starts with the
routed model's base name (`model.split(":")[0]`). -/
def matchedLocalModel (w : RouterWorld) (model : String) : Option String :=
  w.ollamaModels.find? (fun m => pyStartsWith m (splitHead model ':'))

/-- Line 244–252: the local tier is usable when it is configured for the
level, the cached probe says Ollama is up, and some loaded model matches. -/
def localTierUsable (w : RouterWorld) (routing : Routing) : Bool :=
  match routing.ollama with
  | some model => w.ollamaUp && (matchedLocalModel w model).isSome
  | none => false

/-- `LLMClient.complete` (lines 216–277), auto-routing path
(`force_provider=None`), returning the ordered list of providers whose
`complete` was attempted together with the outcome.  Each failed attempt
falls through to the next tier; Groq is consulted before Claude; the Claude
call is not wrapped in a `try`, so its failure propagates as an exception
rather than as `noProviderAvailable`. -/
def complete (w : RouterWorld) (lvl : LLMLevel) : List Provider × RouterOutcome :=
  let routing := MODEL_ROUTING lvl
  let pre : List Provider := if localTierUsable w routing then [.ollama] else []
  if localTierUsable w routing ∧ w.ollamaCompletes then
    (pre, .success .ollama)
  else if routing.groq.isSome ∧ w.groqKeySet then
    if w.groqCompletes then (pre ++ [.groq], .success .groq)
    else if w.claudeKeySet then
      (pre ++ [.groq, .claude],
        if w.claudeCompletes then .success .claude else .uncaughtError .claude)
    else (pre ++ [.groq], .noProviderAvailable)
  else if w.claudeKeySet then
    (pre ++ [.claude],
      if w.claudeCompletes then .success .claude else .uncaughtError .claude)
  else (pre, .noProviderAvailable)

/-! ## Chunked large-value config storage (`notion_client.py`, lines 178–224)

The System Config table is modelled as a partial map from key to stored
string.  Python `str(n)` / `int(s)` on the chunk count become an explicit
decimal print/parse pair (`pyStr` / `pyInt?`). -/

def ConfigStore := String → Option String

/-- A config table with no rows. -/
def emptyStore : ConfigStore := fun _ => none

/-- `set_config_value` (lines 178–194): upsert, truncating the value to 2000
characters (`str(value)[:2000]`). -/
def set_config_value (s : ConfigStore) (k v : String) : ConfigStore :=
  fun q => if q = k then some ⟨v.data.take 2000⟩ else s q

/-- Decimal digits of `n`, least significant first (nonempty: `0 ↦ [0]`). -/
def natDigitsRev (n : Nat) : List Nat :=
  if h : n < 10 then [n] else n % 10 :: natDigitsRev (n / 10)
decreasing_by exact Nat.div_lt_self (by omega) (by omega)

/-- Python `str(n)` for a natural number: its decimal numeral. -/
def pyStr (n : Nat) : String := ⟨(natDigitsRev n).reverse.map Nat.digitChar⟩

/-- Python `int(s)` restricted to the canonical decimal numerals this code
stores (`int` also accepts signs/whitespace, which never occur here);
`none` models `ValueError`. -/
def pyInt? (s : String) : Option Nat :=
  if s.data ≠ [] ∧ s.data.all (fun c => c.isDigit) then
    some (s.data.foldl (fun acc c => acc * 10 + (c.toNat - 48)) 0)
  else none

/-- The slice `value[1900*i : 1900*i + 1900]`. -/
def chunkAt (cs : List Char) (i : Nat) : List Char := (cs.drop (1900 * i)).take 1900

/-- The chunk list of `set_config_value_large` (line 201):
`[value[i:i+1900] for i in range(0, max(len(value),1), 1900)]` — the slices
at offsets `0, 1900, 2·1900, …`; one empty chunk for the empty string. -/
def chunksOf (cs : List Char) : List (List Char) :=
  (List.range ((max cs.length 1 + 1899) / 1900)).map (chunkAt cs)

/-- `key if idx == 0 else f"{key}__{idx}"` (line 203). -/
def chunkKey (key : String) (idx : Nat) : String :=
  if idx = 0 then key else key ++ "__" ++ pyStr idx

/-- The `for idx, chunk in enumerate(chunks)` write loop of lines 202–204. -/
def writeChunks (s : ConfigStore) (key : String) :
    List (List Char) → Nat → ConfigStore
  | [], _ => s
  | c :: rest, idx =>
    writeChunks (set_config_value s (chunkKey key idx) ⟨c⟩) key rest (idx + 1)

/-- `NotionFarmClient.set_config_value_large` (lines 196–206). -/
def set_config_value_large (s : ConfigStore) (key value : String) : ConfigStore :=
  let chunks := chunksOf value.data
  let s := writeChunks s key chunks 0
  set_config_value s (key ++ "__chunks") (pyStr chunks.length)

/-- `NotionFarmClient.get_config_value_large` (lines 208–224). -/
def get_config_value_large (s : ConfigStore) (key dflt : String) : String :=
  let n : Nat :=
    match s (key ++ "__chunks") with
    | some v => (pyInt? v).getD 0
    | none => 0
  if n = 0 then (s key).getD dflt
  else String.join ((List.range n).map (fun idx => ((s (chunkKey key idx)).getD "")))

/-! ## Helper lemmas about the merge -/

theorem merge_total (d : Learnings) (l : Learning) (outcome : String) (p : Project) :
    (merge_learning_into_data d l outcome p).total_projects_analyzed =
      d.total_projects_analyzed + 1 := by
  unfold merge_learning_into_data
  split <;> rcases p.viability_score with _ | s <;> rfl

theorem merge_ids (d : Learnings) (l : Learning) (outcome : String) (p : Project) :
    (merge_learning_into_data d l outcome p).analyzed_project_ids =
      if p.id ≠ "" then d.analyzed_project_ids ++ [p.id]
      else d.analyzed_project_ids := by
  unfold merge_learning_into_data
  split <;> rcases p.viability_score with _ | s <;> rfl

theorem merge_failure_patterns (d : Learnings) (l : Learning) (p : Project) :
    (merge_learning_into_data d l "failure" p).failure_patterns =
      trimRing (d.failure_patterns ++ [mkFailureEntry l p (categoryOf l p)]) := by
  unfold merge_learning_into_data
  rcases p.viability_score with _ | s <;> rfl

theorem merge_avoid_list (d : Learnings) (l : Learning) (p : Project) :
    (merge_learning_into_data d l "failure" p).avoid_list =
      updateAvoidList d.avoid_list
        (trimRing (d.failure_patterns ++ [mkFailureEntry l p (categoryOf l p)])) l := by
  unfold merge_learning_into_data
  rcases p.viability_score with _ | s <;> rfl

theorem merge_success_patterns (d : Learnings) (l : Learning) (outcome : String)
    (p : Project) (h : outcome ≠ "failure") :
    (merge_learning_into_data d l outcome p).successful_patterns =
      trimRing (d.successful_patterns ++ [mkSuccessEntry l p (categoryOf l p)]) := by
  unfold merge_learning_into_data
  rcases p.viability_score with _ | s <;> simp [h] <;> rfl

theorem merge_failure_patterns_of_ne (d : Learnings) (l : Learning)
    (outcome : String) (p : Project) (h : outcome ≠ "failure") :
    (merge_learning_into_data d l outcome p).failure_patterns =
      d.failure_patterns := by
  unfold merge_learning_into_data
  rcases p.viability_score with _ | s <;> simp [h] <;> rfl

/-! ## C1 — idempotence of `extract_from_project` -/

/-- **C1.** For every project dict whose id is already contained in
`meta.analyzed_project_ids` of the stored learnings, a second call to
`extract_from_project` with that project returns `False` and leaves the
`LearningsStore` exactly as it was after the first call: the in-memory data
is returned untouched (no field changes) and `_save_learnings` is not
invoked.  The id is required non-empty, which is exactly the situation after
a first successful call: lines 320–323 only ever record non-empty ids. -/
theorem extract_from_project_idempotent (d : Learnings) (p : Project)
    (outcome : String) (oracle : ExtractOracle) (hid : p.id ≠ "")
    (hmem : p.id ∈ d.analyzed_project_ids) :
    extract_from_project d p outcome oracle = ⟨false, d, false⟩ := by
  unfold extract_from_project
  rw [if_pos ⟨hid, hmem⟩]

/-- Witness for C1 at a concrete store and project. -/
theorem extract_from_project_idempotent_witness :
    ("p1" : String) ≠ "" ∧
    "p1" ∈ ({ analyzed_project_ids := ["p1"] } : Learnings).analyzed_project_ids ∧
    extract_from_project { analyzed_project_ids := ["p1"] } { id := "p1" }
      "failure" (.parsed (some {})) =
      ⟨false, { analyzed_project_ids := ["p1"] }, false⟩ :=
  ⟨by decide, by decide,
    extract_from_project_idempotent _ _ _ _ (by decide) (by decide)⟩

/-! ## C9 — exceptions leave the persisted store unwritten -/

/-- **C9.** If the learning extraction or merge raises an exception inside
`extract_from_project` (the `.raises` oracle), the function returns `False`,
the data is unchanged and the persisted store is not written; moreover the
save flag is set only on the branch that performed a successful merge. -/
theorem extract_from_project_error_no_save (d : Learnings) (p : Project)
    (outcome : String) :
    extract_from_project d p outcome .raises = ⟨false, d, false⟩ ∧
    ∀ o : ExtractOracle, (extract_from_project d p outcome o).saved = true →
      ∃ l, o = .parsed (some l) ∧
        extract_from_project d p outcome o =
          ⟨true, merge_learning_into_data d l outcome p, true⟩ := by
  constructor
  · unfold extract_from_project
    split <;> rfl
  · intro o h
    unfold extract_from_project at h ⊢
    by_cases hc : p.id ≠ "" ∧ p.id ∈ d.analyzed_project_ids
    · rw [if_pos hc] at h
      simp at h
    · rw [if_neg hc] at h ⊢
      match o with
      | .raises => simp at h
      | .parsed none => simp at h
      | .parsed (some l) => exact ⟨l, rfl, rfl⟩

/-- Witness for C9 at a concrete store and project. -/
theorem extract_from_project_error_no_save_witness :
    extract_from_project emptyLearnings { id := "p1" } "failure" .raises =
      ⟨false, emptyLearnings, false⟩ :=
  (extract_from_project_error_no_save emptyLearnings { id := "p1" } "failure").1

/-! ## C10 — the idempotency guard does not apply to id-less projects -/

/-- **C10.** For every project whose id field is missing or empty
(`project.get("id", "") == ""`), `extract_from_project` never takes the
already-analyzed skip branch and never appends to
`meta.analyzed_project_ids`; repeated (successful) calls with such a project
each append a new pattern entry and each increment
`total_projects_analyzed`. -/
theorem extract_from_project_no_id_guard (d : Learnings) (p : Project)
    (outcome : String) (l1 l2 : Learning) (hid : p.id = "") :
    let r1 := extract_from_project d p outcome (.parsed (some l1))
    let r2 := extract_from_project r1.data p outcome (.parsed (some l2))
    r1.returned = true ∧ r2.returned = true ∧
    r1.data.total_projects_analyzed = d.total_projects_analyzed + 1 ∧
    r2.data.total_projects_analyzed = d.total_projects_analyzed + 2 ∧
    r1.data.analyzed_project_ids = d.analyzed_project_ids ∧
    r2.data.analyzed_project_ids = d.analyzed_project_ids ∧
    (outcome = "failure" →
      r1.data.failure_patterns =
        trimRing (d.failure_patterns ++ [mkFailureEntry l1 p (categoryOf l1 p)]) ∧
      r2.data.failure_patterns =
        trimRing (r1.data.failure_patterns ++ [mkFailureEntry l2 p (categoryOf l2 p)])) ∧
    (outcome ≠ "failure" →
      r1.data.successful_patterns =
        trimRing (d.successful_patterns ++ [mkSuccessEntry l1 p (categoryOf l1 p)]) ∧
      r2.data.successful_patterns =
        trimRing (r1.data.successful_patterns ++ [mkSuccessEntry l2 p (categoryOf l2 p)])) := by
  have hskip : ∀ d' : Learnings, ¬ (p.id ≠ "" ∧ p.id ∈ d'.analyzed_project_ids) := by
    intro d' h
    exact h.1 hid
  have hr : ∀ (d' : Learnings) (l : Learning),
      extract_from_project d' p outcome (.parsed (some l)) =
        ⟨true, merge_learning_into_data d' l outcome p, true⟩ := by
    intro d' l
    unfold extract_from_project
    rw [if_neg (hskip d')]
  have hid' : ¬ p.id ≠ "" := fun h => h hid
  refine ⟨?_, ?_, ?_, ?_, ?_, ?_, ?_, ?_⟩
  · rw [hr]
  · rw [hr, hr]
  · rw [hr, merge_total]
  · rw [hr, hr, merge_total, merge_total]
  · rw [hr, merge_ids, if_neg hid']
  · rw [hr, hr, merge_ids, merge_ids, if_neg hid', if_neg hid']
  · intro ho
    subst ho
    simp only [hr, merge_failure_patterns]
    exact ⟨trivial, trivial⟩
  · intro ho
    simp only [hr, merge_success_patterns _ _ _ _ ho]
    exact ⟨trivial, trivial⟩

/-- Witness for C10 at a concrete id-less project. -/
theorem extract_from_project_no_id_guard_witness :
    (({} : Project).id = "") ∧
    (extract_from_project emptyLearnings {} "failure"
      (.parsed (some {}))).returned = true :=
  ⟨rfl, (extract_from_project_no_id_guard emptyLearnings {} "failure" {} {} rfl).1⟩

/-! ## C3 — the viability gate -/

/-- **C3 counterexample.** A viability result with overall score 70 and
recommendation `NEEDS_RESEARCH` does not satisfy the claim's activation
condition (score ≥ threshold AND recommendation = ACTIVATE, at the default
threshold 60), so the claim requires the project to be archived; but
`_viability_check` hits neither the activate branch nor the archive branch
and leaves the project untouched. -/
theorem viability_claim_counterexample :
    ¬ (("NEEDS_RESEARCH" : String) = "ACTIVATE" ∧ (60 : ℚ) ≤ 70) ∧
    viabilityDecision 70 "NEEDS_RESEARCH" ≠ ViabilityDecision.archivedProj ∧
    viabilityDecision 70 "NEEDS_RESEARCH" = ViabilityDecision.unchanged := by
  refine ⟨?_, ?_, ?_⟩ <;> decide

/-- **C3 amended.** For every viability-check research result, the project is
moved to active (with execution tasks created from the parsed plan) exactly
when the recommendation is `ACTIVATE` and the overall score is at least the
literal 60 (the configured `viability_threshold` is not consulted by this
code path); it is archived with a recorded reason exactly when the
recommendation is `REJECT` or the score is below 60; in the remaining case
(recommendation neither `ACTIVATE` nor effectively `REJECT`, score ≥ 60) the
project's status is left unchanged. -/
theorem viabilityDecision_characterization (score : ℚ) (rec : String) :
    (viabilityDecision score rec = ViabilityDecision.activated ↔
      rec = "ACTIVATE" ∧ 60 ≤ score) ∧
    (viabilityDecision score rec = ViabilityDecision.archivedProj ↔
      ¬(rec = "ACTIVATE" ∧ 60 ≤ score) ∧ (rec = "REJECT" ∨ score < 60)) ∧
    (viabilityDecision score rec = ViabilityDecision.unchanged ↔
      ¬(rec = "ACTIVATE" ∧ 60 ≤ score) ∧ ¬(rec = "REJECT" ∨ score < 60)) := by
  unfold viabilityDecision
  by_cases h1 : rec = "ACTIVATE" ∧ 60 ≤ score
  · simp [h1]
  · by_cases h2 : rec = "REJECT" ∨ score < 60 <;> simp [h1, h2]

/-! ## C2 — scaling decision in `evaluate_active_projects` -/

/-- **C2 counterexample.**  A project whose cached `revenue_30d` field is
10.00 while the ledger recomputation returns 9.9995 (a 0.0005 discrepancy,
within the 0.01 tolerance of line 109) is scaled at threshold 10, although
the recomputed ledger revenue is strictly below the threshold: the decision
used the cached field, contradicting the claim that the recomputed revenue
is used on every evaluation. -/
theorem scaling_cached_counterexample :
    (evaluate_project 10 21 0 { status := "active", revenue_30d := 10 }
        (19999/2000)).scaled = true ∧
    ¬ ((10 : ℚ) ≤ 19999/2000) := by
  have h1 : ¬ ((1:ℚ)/100 < |(19999/2000 : ℚ) - 10|) := by
    have : (19999/2000 : ℚ) - 10 = -(1/2000) := by norm_num
    rw [this, abs_neg, abs_of_nonneg (by norm_num : (0:ℚ) ≤ 1/2000)]
    norm_num
  constructor
  · unfold evaluate_project
    dsimp only
    rw [if_neg h1, if_pos ⟨le_refl (10:ℚ), by decide⟩]
  · norm_num

/-- **C2 amended.** In each evaluation the trailing-30-day revenue is
recomputed from the revenue ledger, but the cached project field is replaced
by it only when the two differ by more than 0.01 (so the value the decision
uses is always within 0.01 of the ledger value); the scaling transition fires
exactly when that used value meets or exceeds `scale_threshold_usd` (boundary
inclusive) and the project is not already scaling; and a project that scales
in a pass is never archived in that same pass. -/
theorem evaluate_project_scaling (scaleThreshold : ℚ) (archiveDays now : Int)
    (p : Project) (actual30d : ℚ) :
    let r := evaluate_project scaleThreshold archiveDays now p actual30d
    (r.revenueUsed =
      if 1/100 < |actual30d - p.revenue_30d| then actual30d else p.revenue_30d) ∧
    |r.revenueUsed - actual30d| ≤ 1/100 ∧
    (r.scaled = true ↔ scaleThreshold ≤ r.revenueUsed ∧ p.status ≠ "scaling") ∧
    (r.scaled = true → r.archived = false) ∧
    (p.status = "scaling" → r.archived = false) ∧
    (r.revenueUsed = scaleThreshold ∧ p.status ≠ "scaling" → r.scaled = true) := by
  unfold evaluate_project
  dsimp only
  by_cases hw : (1:ℚ)/100 < |actual30d - p.revenue_30d|
  · rw [if_pos hw]
    by_cases hs : scaleThreshold ≤ actual30d ∧ ¬ p.status = "scaling"
    · rw [if_pos hs]
      dsimp only
      exact ⟨rfl, by norm_num, iff_of_true rfl hs, fun _ => rfl, fun _ => rfl,
        fun _ => rfl⟩
    · rw [if_neg hs]
      dsimp only
      refine ⟨rfl, by norm_num, iff_of_false (by decide) hs,
        fun h => absurd h (by decide), ?_, ?_⟩
      · intro h
        simp [h]
      · rintro ⟨h1, h2⟩
        exact absurd ⟨h1.ge, h2⟩ hs
  · rw [if_neg hw]
    have habs : |p.revenue_30d - actual30d| ≤ 1/100 := by
      rw [abs_sub_comm]
      exact le_of_not_lt hw
    by_cases hs : scaleThreshold ≤ p.revenue_30d ∧ ¬ p.status = "scaling"
    · rw [if_pos hs]
      dsimp only
      exact ⟨rfl, habs, iff_of_true rfl hs, fun _ => rfl, fun _ => rfl, fun _ => rfl⟩
    · rw [if_neg hs]
      dsimp only
      refine ⟨rfl, habs, iff_of_false (by decide) hs,
        fun h => absurd h (by decide), ?_, ?_⟩
      · intro h
        simp [h]
      · rintro ⟨h1, h2⟩
        exact absurd ⟨h1.ge, h2⟩ hs

/-- Witness for the C2 amended theorem: at the boundary (used revenue equal
to the threshold, active project) the project scales and is not archived. -/
theorem evaluate_project_scaling_witness :
    (evaluate_project 10 21 0 { status := "active", revenue_30d := 10 } 10).revenueUsed = 10 ∧
    (evaluate_project 10 21 0 { status := "active", revenue_30d := 10 } 10).scaled = true := by
  obtain ⟨h1, -, -, -, -, h6⟩ :=
    evaluate_project_scaling 10 21 0 { status := "active", revenue_30d := 10 } 10
  have hrev : (evaluate_project 10 21 0
      { status := "active", revenue_30d := 10 } 10).revenueUsed = 10 := by
    rw [h1]
    norm_num
  exact ⟨hrev, h6 ⟨hrev, by decide⟩⟩

/-! ## C5 — router tier order and exhaustion -/

/-- **C5.** For every routing level, when the local tier is unusable (not
configured for the level, probed unavailable, or no loaded local model
prefix-matches the routed model), the router attempts the free remote tier
(Groq) before the paid tier (Claude), never skipping that order — the
attempt list is exactly Groq-then-Claude as far as tiers are configured and
available — and it raises the no-provider-available error exactly when every
configured tier has been tried or found unavailable. -/
theorem router_free_before_paid (w : RouterWorld) (lvl : LLMLevel)
    (hlocal : localTierUsable w (MODEL_ROUTING lvl) = false) :
    let r := complete w lvl
    r.1 = (if (MODEL_ROUTING lvl).groq.isSome ∧ w.groqKeySet then
             if w.groqCompletes then [Provider.groq]
             else if w.claudeKeySet then [Provider.groq, Provider.claude]
             else [Provider.groq]
           else if w.claudeKeySet then [Provider.claude] else []) ∧
    Provider.ollama ∉ r.1 ∧
    (r.2 = RouterOutcome.noProviderAvailable ↔
      ¬((MODEL_ROUTING lvl).groq.isSome ∧ w.groqKeySet ∧ w.groqCompletes = true) ∧
        w.claudeKeySet = false) := by
  unfold complete
  simp only [hlocal, Bool.false_eq_true, false_and, if_false, ite_false]
  by_cases hg : (MODEL_ROUTING lvl).groq.isSome ∧ w.groqKeySet
  · simp only [hg, if_true]
    by_cases hgc : w.groqCompletes
    · simp [hg, hgc]
    · by_cases hck : w.claudeKeySet
      · by_cases hcc : w.claudeCompletes <;> simp [hg, hgc, hck, hcc]
      · simp [hg, hgc, hck]
  · by_cases hck : w.claudeKeySet
    · by_cases hcc : w.claudeCompletes <;> simp [hg, hck, hcc]
    · simp [hg, hck]
      intro h1 h2
      exact absurd ⟨h1, h2⟩ hg

/-- Witness for C5: Ollama down, Groq key set but failing, no Claude key —
the router attempted Groq (never Ollama) and then failed with
no-provider-available. -/
theorem router_free_before_paid_witness :
    localTierUsable ⟨false, [], false, true, false, false, false⟩
      (MODEL_ROUTING LLMLevel.simple) = false ∧
    Provider.ollama ∉ (complete ⟨false, [], false, true, false, false, false⟩
      LLMLevel.simple).1 :=
  ⟨by decide, (router_free_before_paid ⟨false, [], false, true, false, false, false⟩
      LLMLevel.simple (by decide)).2.1⟩

/-! ## C4 — task selection: lemmas about the stable sort -/

theorem mem_insertByRank {x y : Task} {l : List Task} :
    y ∈ insertByRank x l ↔ y = x ∨ y ∈ l := by
  induction l with
  | nil => simp [insertByRank]
  | cons a l ih =>
    unfold insertByRank
    split
    · simp only [List.mem_cons, ih]
      tauto
    · simp only [List.mem_cons]

theorem mem_sortByRank {y : Task} {l : List Task} :
    y ∈ sortByRank l ↔ y ∈ l := by
  induction l with
  | nil => simp [sortByRank]
  | cons a l ih => simp [sortByRank, mem_insertByRank, ih]

theorem pairwise_insertByRank (x : Task) (l : List Task)
    (h : l.Pairwise (fun a b => priorityRank a ≤ priorityRank b)) :
    (insertByRank x l).Pairwise (fun a b => priorityRank a ≤ priorityRank b) := by
  induction l with
  | nil => simp [insertByRank]
  | cons a l ih =>
    rcases List.pairwise_cons.mp h with ⟨ha, hl⟩
    unfold insertByRank
    split
    · rename_i hlt
      refine List.pairwise_cons.mpr ⟨?_, ih hl⟩
      intro b hb
      rcases mem_insertByRank.mp hb with rfl | hbl
      · exact le_of_lt hlt
      · exact ha b hbl
    · rename_i hnlt
      refine List.pairwise_cons.mpr ⟨?_, h⟩
      intro b hb
      rcases List.mem_cons.mp hb with rfl | hbl
      · exact le_of_not_lt hnlt
      · exact (le_of_not_lt hnlt).trans (ha b hbl)

theorem pairwise_sortByRank (l : List Task) :
    (sortByRank l).Pairwise (fun a b => priorityRank a ≤ priorityRank b) := by
  induction l with
  | nil => simp [sortByRank]
  | cons a l ih => exact pairwise_insertByRank a _ ih

theorem filter_insertByRank (x : Task) (l : List Task) (r : Nat) :
    (insertByRank x l).filter (fun t => priorityRank t = r) =
      (x :: l).filter (fun t => priorityRank t = r) := by
  induction l with
  | nil => rfl
  | cons a l ih =>
    unfold insertByRank
    split
    · rename_i hlt
      have hne : ¬ (priorityRank a = r ∧ priorityRank x = r) := by
        rintro ⟨ha, hx⟩
        exact Nat.ne_of_lt hlt (ha.trans hx.symm)
      by_cases ha : priorityRank a = r
      · have hx : ¬ priorityRank x = r := fun hx => hne ⟨ha, hx⟩
        simp [List.filter_cons, ha, hx, ih]
      · by_cases hx : priorityRank x = r <;> simp [List.filter_cons, ha, hx, ih]
    · rfl

theorem filter_sortByRank (l : List Task) (r : Nat) :
    (sortByRank l).filter (fun t => priorityRank t = r) =
      l.filter (fun t => priorityRank t = r) := by
  induction l with
  | nil => rfl
  | cons a l ih =>
    show (insertByRank a (sortByRank l)).filter _ = _
    rw [filter_insertByRank]
    simp only [List.filter_cons, ih]

theorem filter_take_isPrefixOf (p : Task → Bool) (n : Nat) (l : List Task) :
    (l.take n).filter p <+: l.filter p :=
  ⟨(l.drop n).filter p, by rw [← List.filter_append, List.take_append_drop]⟩

/-- **C4.** For every machine and budget, the selection returned by
`get_pending_tasks_for_machine` contains no task with `requires_human`, is
sorted by priority rank (urgent=0, high=1, medium=2, low=3) with ties
preserving the arrival order of the pending list (for each rank, the
selected tasks of that rank are a prefix, in order, of the pending
human-free tasks of that rank), and has length at most
`max(0, maxConcurrent − in-progress count attributed to this machine)`
(truncated `Nat` subtraction); when that remaining budget is zero the
selection is empty. -/
theorem get_pending_tasks_spec (machineName : String) (maxConcurrent : Nat)
    (inProgress pending : List Task) :
    let sel := get_pending_tasks_for_machine machineName maxConcurrent inProgress pending
    let budget := maxConcurrent - (inProgress.filter (machineMatches machineName)).length
    (∀ t ∈ sel, t.requires_human = false) ∧
    sel.Pairwise (fun a b => priorityRank a ≤ priorityRank b) ∧
    (∀ r : Nat, sel.filter (fun t => priorityRank t = r) <+:
      (pending.filter (fun t => !t.requires_human)).filter
        (fun t => priorityRank t = r)) ∧
    sel.length ≤ budget ∧
    (budget = 0 → sel = []) := by
  unfold get_pending_tasks_for_machine
  dsimp only
  by_cases hb : maxConcurrent -
      (inProgress.filter (machineMatches machineName)).length = 0
  · rw [if_pos hb]
    refine ⟨by simp, by simp, ?_, by simp, fun _ => rfl⟩
    intro r
    exact ⟨_, List.nil_append _⟩
  · rw [if_neg hb]
    refine ⟨?_, ?_, ?_, ?_, fun h => absurd h hb⟩
    · intro t ht
      have h1 : t ∈ sortByRank (pending.filter (fun t => !t.requires_human)) :=
        List.mem_of_mem_take ht
      have h2 := mem_sortByRank.mp h1
      have := List.of_mem_filter h2
      simpa using this
    · exact List.Pairwise.sublist (List.take_sublist _ _) (pairwise_sortByRank _)
    · intro r
      have h1 := filter_take_isPrefixOf (fun t => decide (priorityRank t = r))
        (maxConcurrent - (inProgress.filter (machineMatches machineName)).length)
        (sortByRank (pending.filter (fun t => !t.requires_human)))
      rwa [filter_sortByRank] at h1
    · exact List.length_take_le _ _

/-- Witness for C4: with priorities [low, urgent, medium, urgent, high] and
budget 3 the selection is the two urgent tasks in arrival order followed by
the high task, and it contains no human-gated task. -/
theorem get_pending_tasks_spec_witness :
    get_pending_tasks_for_machine "m" 3 []
      [{ title := "t1", priority := "low" }, { title := "t2", priority := "urgent" },
       { title := "t3", priority := "medium" }, { title := "t4", priority := "urgent" },
       { title := "t5", priority := "high" }] =
      [{ title := "t2", priority := "urgent" }, { title := "t4", priority := "urgent" },
       { title := "t5", priority := "high" }] ∧
    ∀ t ∈ get_pending_tasks_for_machine "m" 3 []
      [{ title := "t1", priority := "low" }, { title := "t2", priority := "urgent" },
       { title := "t3", priority := "medium" }, { title := "t4", priority := "urgent" },
       { title := "t5", priority := "high" }], t.requires_human = false :=
  ⟨by decide,
    (get_pending_tasks_spec "m" 3 []
      [{ title := "t1", priority := "low" }, { title := "t2", priority := "urgent" },
       { title := "t3", priority := "medium" }, { title := "t4", priority := "urgent" },
       { title := "t5", priority := "high" }]).1⟩

/-! ## C6 — bounded failure-pattern ring -/

/-- A sequence of failure merges: what a run of successful failure
extractions performs on the stored data (each successful
`extract_from_project(..., outcome="failure")` call executes exactly one
`_merge_learning_into_data` with that outcome, see
`extract_from_project_error_no_save`). -/
def mergeFailures (d : Learnings) (ls : List (Learning × Project)) : Learnings :=
  ls.foldl (fun acc lp => merge_learning_into_data acc lp.1 "failure" lp.2) d

theorem lastN_append_lastN (n : Nat) (a b : List α) :
    lastN n (lastN n a ++ b) = lastN n (a ++ b) := by
  unfold lastN
  rcases le_or_lt a.length n with h | h
  · rw [Nat.sub_eq_zero_of_le h, List.drop_zero]
  · have hlen : (a.drop (a.length - n)).length = n := by
      rw [List.length_drop]
      omega
    rw [List.length_append, List.length_append, hlen]
    have h1 : n + b.length - n = b.length := by omega
    rw [h1]
    have h2 : a.drop (a.length - n) ++ b = (a ++ b).drop (a.length - n) := by
      rw [List.drop_append_of_le_length (by omega)]
    rw [h2, List.drop_drop]
    congr 1
    omega

theorem trimRing_length_le (l : List α) : (trimRing l).length ≤ 20 ∨ trimRing l = l := by
  unfold trimRing
  split
  · left
    unfold lastN
    rw [List.length_drop]
    omega
  · right
    rfl

theorem trimRing_trimRing_append (a b : List α) :
    trimRing (trimRing a ++ b) = trimRing (a ++ b) := by
  unfold trimRing
  by_cases ha : 20 < a.length
  · rw [if_pos ha]
    have hlen : (lastN 20 a).length = 20 := by
      unfold lastN
      rw [List.length_drop]
      omega
    rcases eq_or_ne b [] with hb | hb
    · subst hb
      rw [List.append_nil, List.append_nil,
        if_neg (by rw [hlen]; omega), if_pos ha]
    · have hbl : 0 < b.length := List.length_pos.mpr hb
      rw [if_pos (by rw [List.length_append, hlen]; omega),
        if_pos (by rw [List.length_append]; omega)]
      exact lastN_append_lastN 20 a b
  · rw [if_neg ha]

theorem foldl_trimRing_append (xs : List α) (start : List α)
    (h : start.length ≤ 20 ∨ xs ≠ []) :
    xs.foldl (fun acc x => trimRing (acc ++ [x])) start = trimRing (start ++ xs) := by
  induction xs generalizing start with
  | nil =>
    rcases h with h | h
    · rw [List.foldl_nil, List.append_nil]
      unfold trimRing
      rw [if_neg (by omega)]
    · exact absurd rfl h
  | cons x xs ih =>
    rw [List.foldl_cons]
    have hlen : (trimRing (start ++ [x])).length ≤ 20 := by
      unfold trimRing
      split
      · unfold lastN
        rw [List.length_drop]
        omega
      · rename_i h2
        omega
    rw [ih _ (Or.inl hlen), trimRing_trimRing_append, List.append_assoc]
    rfl

theorem foldl_entry_map (ls : List (Learning × Project)) (start : List FailureEntry) :
    ls.foldl (fun acc lp =>
      trimRing (acc ++ [mkFailureEntry lp.1 lp.2 (categoryOf lp.1 lp.2)])) start =
    (ls.map (fun lp => mkFailureEntry lp.1 lp.2 (categoryOf lp.1 lp.2))).foldl
      (fun acc x => trimRing (acc ++ [x])) start := by
  induction ls generalizing start with
  | nil => rfl
  | cons lp ls ih =>
    simp only [List.foldl_cons, List.map_cons]
    exact ih _

theorem mergeFailures_failure_patterns (d : Learnings)
    (ls : List (Learning × Project)) :
    (mergeFailures d ls).failure_patterns =
      ls.foldl (fun acc lp =>
        trimRing (acc ++ [mkFailureEntry lp.1 lp.2 (categoryOf lp.1 lp.2)]))
        d.failure_patterns := by
  induction ls generalizing d with
  | nil => rfl
  | cons lp ls ih =>
    simp only [mergeFailures, List.foldl_cons] at *
    rw [ih, merge_failure_patterns]

/-- **C6.** Starting from any stored state, after inserting 25 failure
patterns via successful failure extractions the `failure_patterns` list has
length exactly 20 and contains precisely the 20 most recently inserted
entries (entries 6..25, in order); moreover the bound 20 holds after every
single failure merge, whatever the previous length was. -/
theorem failure_ring_bound (d : Learnings) (ls : List (Learning × Project))
    (h : ls.length = 25) :
    (mergeFailures d ls).failure_patterns =
      (ls.map (fun lp => mkFailureEntry lp.1 lp.2 (categoryOf lp.1 lp.2))).drop 5 ∧
    (mergeFailures d ls).failure_patterns.length = 20 ∧
    ∀ (d' : Learnings) (l : Learning) (p : Project),
      (merge_learning_into_data d' l "failure" p).failure_patterns.length ≤ 20 := by
  have hmap : (ls.map (fun lp => mkFailureEntry lp.1 lp.2 (categoryOf lp.1 lp.2))).length = 25 := by
    rw [List.length_map, h]
  have hne : ls.map (fun lp => mkFailureEntry lp.1 lp.2 (categoryOf lp.1 lp.2)) ≠ [] := by
    intro hcon
    rw [hcon] at hmap
    simp at hmap
  have key : (mergeFailures d ls).failure_patterns =
      (ls.map (fun lp => mkFailureEntry lp.1 lp.2 (categoryOf lp.1 lp.2))).drop 5 := by
    rw [mergeFailures_failure_patterns, foldl_entry_map,
      foldl_trimRing_append _ _ (Or.inr hne)]
    unfold trimRing
    rw [if_pos (by rw [List.length_append, hmap]; omega)]
    unfold lastN
    rw [List.length_append, hmap]
    have : d.failure_patterns.length + 25 - 20 = d.failure_patterns.length + 5 := by
      omega
    rw [this, ← List.drop_drop, List.drop_left]
  refine ⟨key, ?_, ?_⟩
  · rw [key, List.length_drop, hmap]
  · intro d' l p
    rw [merge_failure_patterns]
    unfold trimRing
    split
    · unfold lastN
      rw [List.length_drop]
      omega
    · rename_i h2
      omega

/-- Witness for C6 at a concrete 25-element insertion sequence. -/
theorem failure_ring_bound_witness :
    (List.replicate 25 (({} : Learning), ({} : Project))).length = 25 ∧
    (mergeFailures emptyLearnings
      (List.replicate 25 (({} : Learning), ({} : Project)))).failure_patterns.length = 20 :=
  ⟨by simp,
    (failure_ring_bound emptyLearnings _ (by simp)).2.1⟩

/-! ## C7 — avoid-list promotion -/

theorem trimRing_eq_self {l : List α} (h : l.length ≤ 20) : trimRing l = l := by
  unfold trimRing
  rw [if_neg (by omega)]

theorem pyLower_eq_empty_iff (s : String) : pyLower s = "" ↔ s = "" := by
  constructor
  · intro h
    have hd : s.data.map Char.toLower = ([] : List Char) := congrArg String.data h
    have : s.data = [] := List.map_eq_nil_iff.mp hd
    cases s
    simp_all
  · rintro rfl
    rfl

theorem mergeFailures_snoc (d : Learnings) (ls : List (Learning × Project))
    (x : Learning × Project) :
    mergeFailures d (ls ++ [x]) =
      merge_learning_into_data (mergeFailures d ls) x.1 "failure" x.2 := by
  unfold mergeFailures
  rw [List.foldl_append]
  rfl

theorem exists_lower_append {l : List String} {q s : String} :
    (∃ a ∈ l ++ [q], pyLower a = pyLower s) ↔
      (∃ a ∈ l, pyLower a = pyLower s) ∨ pyLower q = pyLower s := by
  constructor
  · rintro ⟨a, ha, hpa⟩
    rcases List.mem_append.mp ha with h | h
    · exact Or.inl ⟨a, h, hpa⟩
    · rw [List.mem_singleton] at h
      subst h
      exact Or.inr hpa
  · rintro (⟨a, ha, hpa⟩ | hq)
    · exact ⟨a, List.mem_append_left _ ha, hpa⟩
    · exact ⟨q, List.mem_append_right _ (List.mem_singleton_self q), hq⟩

/-- The invariant maintained by failure merges from the empty store while no
ring eviction can occur (at most 15 merges): the stored failure entries are
exactly the inserted ones, the avoid list has grown by at most one entry per
merge (so its 15-cap trim never fires), and a (case-insensitive, nonempty)
pattern class is represented in `avoid_list` exactly when it occurs at least
twice among the inserted avoid patterns. -/
theorem mergeFailures_inv (ls : List (Learning × Project)) :
    ls.length ≤ 15 →
    (∀ lp ∈ ls, pyStrip lp.1.avoid_pattern = lp.1.avoid_pattern) →
    (mergeFailures emptyLearnings ls).failure_patterns =
      ls.map (fun lp => mkFailureEntry lp.1 lp.2 (categoryOf lp.1 lp.2)) ∧
    (mergeFailures emptyLearnings ls).avoid_list.length ≤ ls.length ∧
    (∀ s : String, pyLower s ≠ "" →
      ((∃ a ∈ (mergeFailures emptyLearnings ls).avoid_list, pyLower a = pyLower s) ↔
        2 ≤ ls.countP (fun lp => decide (pyLower lp.1.avoid_pattern = pyLower s)))) := by
  induction ls using List.reverseRecOn with
  | nil =>
    intro _ _
    refine ⟨rfl, by simp [mergeFailures, emptyLearnings], ?_⟩
    intro s hs
    simp [mergeFailures, emptyLearnings]
  | append_singleton seq x ih =>
    intro hlen htrim
    have hlseq : seq.length ≤ 14 := by
      rw [List.length_append, List.length_singleton] at hlen
      omega
    obtain ⟨ih1, ih2, ih3⟩ :=
      ih (by omega) (fun lp hlp => htrim lp (List.mem_append_left _ hlp))
    have hx : pyStrip x.1.avoid_pattern = x.1.avoid_pattern :=
      htrim x (List.mem_append_right _ (List.mem_singleton_self x))
    rw [mergeFailures_snoc]
    set S := mergeFailures emptyLearnings seq with hS
    have hmaplen :
        (S.failure_patterns ++ [mkFailureEntry x.1 x.2 (categoryOf x.1 x.2)]).length ≤ 20 := by
      rw [List.length_append, ih1, List.length_map, List.length_singleton]
      omega
    have hfp : (merge_learning_into_data S x.1 "failure" x.2).failure_patterns =
        (seq ++ [x]).map (fun lp => mkFailureEntry lp.1 lp.2 (categoryOf lp.1 lp.2)) := by
      rw [merge_failure_patterns, trimRing_eq_self hmaplen, ih1, List.map_append]
      rfl
    have hav : (merge_learning_into_data S x.1 "failure" x.2).avoid_list =
        updateAvoidList S.avoid_list
          ((seq ++ [x]).map (fun lp => mkFailureEntry lp.1 lp.2 (categoryOf lp.1 lp.2)))
          x.1 := by
      rw [merge_avoid_list, trimRing_eq_self hmaplen, ih1, List.map_append]
      rfl
    have hcnt : ∀ s : String,
        (seq ++ [x]).countP (fun lp => decide (pyLower lp.1.avoid_pattern = pyLower s)) =
          seq.countP (fun lp => decide (pyLower lp.1.avoid_pattern = pyLower s)) +
          (if pyLower x.1.avoid_pattern = pyLower s then 1 else 0) := by
      intro s
      rw [List.countP_append]
      simp [List.countP_cons]
    have hec : ∀ s : String,
        ((((seq ++ [x]).map (fun lp => mkFailureEntry lp.1 lp.2 (categoryOf lp.1 lp.2))).filter
          (fun fp => decide (pyLower fp.avoid_pattern = pyLower s))).length) =
          (seq ++ [x]).countP (fun lp => decide (pyLower lp.1.avoid_pattern = pyLower s)) := by
      intro s
      rw [← List.countP_eq_length_filter, List.countP_map]
      rfl
    refine ⟨hfp, ?_, ?_⟩
    · -- avoid-list length bound
      rw [hav]
      unfold updateAvoidList
      dsimp only
      rw [hx]
      by_cases hqe : x.1.avoid_pattern = ""
      · rw [if_neg (by simp [hqe])]
        rw [List.length_append, List.length_singleton]
        omega
      · rw [if_pos hqe]
        split
        · rw [if_neg (by
            rw [List.length_append, List.length_singleton]
            omega)]
          rw [List.length_append, List.length_singleton,
            List.length_append, List.length_singleton]
          omega
        · rw [List.length_append, List.length_singleton]
          omega
    · -- the promotion characterization
      intro s hs
      rw [hav]
      unfold updateAvoidList
      dsimp only
      rw [hx, hcnt s]
      by_cases hqe : x.1.avoid_pattern = ""
      · rw [if_neg (by simp [hqe])]
        have hxm : ¬ (pyLower x.1.avoid_pattern = pyLower s) := by
          rw [hqe]
          intro hcon
          exact hs hcon.symm
        rw [if_neg hxm, Nat.add_zero]
        exact ih3 s hs
      · rw [if_pos hqe]
        have hqlow : pyLower x.1.avoid_pattern ≠ "" := by
          intro hcon
          exact hqe ((pyLower_eq_empty_iff _).mp hcon)
        by_cases hm : pyLower x.1.avoid_pattern = pyLower s
        · -- the new pattern is in s's case-class
          rw [if_pos hm]
          have hcc : seq.countP
              (fun lp => decide (pyLower lp.1.avoid_pattern = pyLower x.1.avoid_pattern)) =
              seq.countP (fun lp => decide (pyLower lp.1.avoid_pattern = pyLower s)) := by
            rw [hm]
          by_cases hal : ∃ a ∈ S.avoid_list, pyLower a = pyLower s
          · -- already listed: no promotion, still present
            have hany : S.avoid_list.any
                (fun a => decide (pyLower a = pyLower x.1.avoid_pattern)) = true := by
              rw [List.any_eq_true]
              obtain ⟨a, ha, hpa⟩ := hal
              exact ⟨a, ha, by simp [hpa, hm]⟩
            rw [if_neg (by simp [hany])]
            have h2 : 2 ≤ seq.countP
                (fun lp => decide (pyLower lp.1.avoid_pattern = pyLower s)) :=
              (ih3 s hs).mp hal
            exact iff_of_true hal (by omega)
          · -- not yet listed
            have hany : S.avoid_list.any
                (fun a => decide (pyLower a = pyLower x.1.avoid_pattern)) = false := by
              rw [List.any_eq_false]
              intro a ha
              simp only [decide_eq_true_eq, hm]
              exact fun hpa => hal ⟨a, ha, hpa⟩
            have hcs : ¬ 2 ≤ seq.countP
                (fun lp => decide (pyLower lp.1.avoid_pattern = pyLower s)) :=
              fun h2 => hal ((ih3 s hs).mpr h2)
            by_cases hc1 : 1 ≤ seq.countP
                (fun lp => decide (pyLower lp.1.avoid_pattern = pyLower s))
            · -- second occurrence: promoted now
              rw [if_pos ⟨by rw [hec, hcnt, hcc, if_pos rfl]; omega, by simp [hany]⟩]
              rw [if_neg (by
                rw [List.length_append, List.length_singleton]
                omega)]
              refine iff_of_true ?_ (by omega)
              exact ⟨x.1.avoid_pattern,
                List.mem_append_right _ (List.mem_singleton_self _), hm⟩
            · -- first occurrence: not promoted
              rw [if_neg (by
                rw [hec, hcnt, hcc, if_pos rfl]
                rintro ⟨h2, -⟩
                omega)]
              exact iff_of_false hal (by omega)
        · -- the new pattern is in another case-class
          rw [if_neg hm, Nat.add_zero]
          split
          · -- some other pattern was promoted
            rw [if_neg (by
              rw [List.length_append, List.length_singleton]
              omega)]
            rw [exists_lower_append]
            constructor
            · rintro (hbase | hq)
              · exact (ih3 s hs).mp hbase
              · exact absurd hq hm
            · intro h2
              exact Or.inl ((ih3 s hs).mpr h2)
          · exact ih3 s hs

/-- **C7 counterexample.** After the 21-merge failure sequence
`p, p, a, b, …, u` (pattern "p" twice, then 19 distinct patterns), the
20-entry ring has evicted the first "p" entry: "p" occurs (case-insensitively)
in exactly one stored failure entry, yet it is still present in `avoid_list`
(promotion happened at insert 2 and avoid-list entries are never removed),
so both the claimed biconditional and its "exactly 1 ⇒ absent" instance are
false. -/
theorem avoid_list_claim_counterexample :
    ((mergeFailures emptyLearnings
      ((({ avoid_pattern := "p" } : Learning), ({} : Project)) ::
       (({ avoid_pattern := "p" } : Learning), ({} : Project)) ::
       (["a", "b", "c", "d", "e", "f", "g", "h", "i", "j", "k", "l", "n",
         "o", "q", "r", "s", "t", "u"].map
         (fun t => (({ avoid_pattern := t } : Learning), ({} : Project)))))).failure_patterns.filter
      (fun fp => decide (pyLower fp.avoid_pattern = pyLower "p"))).length = 1 ∧
    "p" ∈ (mergeFailures emptyLearnings
      ((({ avoid_pattern := "p" } : Learning), ({} : Project)) ::
       (({ avoid_pattern := "p" } : Learning), ({} : Project)) ::
       (["a", "b", "c", "d", "e", "f", "g", "h", "i", "j", "k", "l", "n",
         "o", "q", "r", "s", "t", "u"].map
         (fun t => (({ avoid_pattern := t } : Learning), ({} : Project)))))).avoid_list := by
  constructor <;> decide

/-- **C7 amended.** Promotion is evaluated at insert time against the
current stored window, and avoid-list entries are only ever removed by the
15-cap trim; consequently, for sequences of at most 15 failure merges from
the empty store (so that neither the 20-entry failure ring nor the 15-entry
avoid-list cap can evict anything) whose avoid patterns carry no surrounding
whitespace, a nonempty avoid-pattern string is present (case-insensitively)
in `avoid_list` exactly when it occurs (case-insensitively) in at least 2 of
the stored failure entries — so 2 occurrences make it present and 1 leaves
it absent.  (With longer sequences eviction breaks the biconditional, as the
counterexample shows.) -/
theorem avoid_list_promotion (ls : List (Learning × Project))
    (hlen : ls.length ≤ 15)
    (htrim : ∀ lp ∈ ls, pyStrip lp.1.avoid_pattern = lp.1.avoid_pattern)
    (s : String) (hs : s ≠ "") :
    (∃ a ∈ (mergeFailures emptyLearnings ls).avoid_list, pyLower a = pyLower s) ↔
      2 ≤ ((mergeFailures emptyLearnings ls).failure_patterns.filter
        (fun fp => decide (pyLower fp.avoid_pattern = pyLower s))).length := by
  obtain ⟨h1, -, h3⟩ := mergeFailures_inv ls hlen htrim
  rw [h1, ← List.countP_eq_length_filter, List.countP_map]
  exact h3 s (fun hcon => hs ((pyLower_eq_empty_iff _).mp hcon))

/-- Witness for the C7 amended theorem: patterns "P", "p", "x" — "p" occurs
twice case-insensitively and is present in the avoid list. -/
theorem avoid_list_promotion_witness :
    ((∃ a ∈ (mergeFailures emptyLearnings
        [(({ avoid_pattern := "P" } : Learning), ({} : Project)),
         (({ avoid_pattern := "p" } : Learning), ({} : Project)),
         (({ avoid_pattern := "x" } : Learning), ({} : Project))]).avoid_list,
      pyLower a = pyLower "p") ↔
      2 ≤ ((mergeFailures emptyLearnings
        [(({ avoid_pattern := "P" } : Learning), ({} : Project)),
         (({ avoid_pattern := "p" } : Learning), ({} : Project)),
         (({ avoid_pattern := "x" } : Learning), ({} : Project))]).failure_patterns.filter
        (fun fp => decide (pyLower fp.avoid_pattern = pyLower "p"))).length) ∧
    "p" ∈ (mergeFailures emptyLearnings
        [(({ avoid_pattern := "P" } : Learning), ({} : Project)),
         (({ avoid_pattern := "p" } : Learning), ({} : Project)),
         (({ avoid_pattern := "x" } : Learning), ({} : Project))]).avoid_list :=
  ⟨avoid_list_promotion _ (by decide) (by decide) "p" (by decide), by decide⟩

/-! ## C8 — chunked storage roundtrip: decimal print/parse -/

theorem natDigitsRev_ne_nil (n : Nat) : natDigitsRev n ≠ [] := by
  unfold natDigitsRev
  split <;> simp

theorem natDigitsRev_lt_ten (n : Nat) : ∀ d ∈ natDigitsRev n, d < 10 := by
  induction n using Nat.strong_induction_on with
  | _ n ih =>
    unfold natDigitsRev
    split
    · rename_i h
      intro d hd
      rw [List.mem_singleton] at hd
      omega
    · rename_i h
      intro d hd
      rcases List.mem_cons.mp hd with rfl | hd'
      · exact Nat.mod_lt _ (by omega)
      · exact ih (n / 10) (Nat.div_lt_self (by omega) (by omega)) d hd'

/-- The value denoted by a least-significant-first digit list. -/
def valOfDigits : List Nat → Nat
  | [] => 0
  | d :: ds => d + 10 * valOfDigits ds

theorem valOfDigits_natDigitsRev (n : Nat) : valOfDigits (natDigitsRev n) = n := by
  induction n using Nat.strong_induction_on with
  | _ n ih =>
    unfold natDigitsRev
    split
    · simp [valOfDigits]
    · rename_i h
      have := ih (n / 10) (Nat.div_lt_self (by omega) (by omega))
      simp [valOfDigits, this]
      omega

theorem digitChar_isDigit {d : Nat} (h : d < 10) : (Nat.digitChar d).isDigit = true := by
  interval_cases d <;> decide

theorem digitChar_toNat {d : Nat} (h : d < 10) : (Nat.digitChar d).toNat - 48 = d := by
  interval_cases d <;> decide

theorem foldl_digits (ds : List Nat) (h : ∀ d ∈ ds, d < 10) : ∀ (a : Nat),
    (ds.reverse.map Nat.digitChar).foldl (fun acc c => acc * 10 + (c.toNat - 48)) a =
      a * 10 ^ ds.length + valOfDigits ds := by
  induction ds with
  | nil =>
    intro a
    simp [valOfDigits]
  | cons d ds ih =>
    intro a
    rw [List.reverse_cons, List.map_append, List.foldl_append,
      ih (fun x hx => h x (List.mem_cons_of_mem _ hx))]
    simp only [List.map_cons, List.map_nil, List.foldl_cons, List.foldl_nil,
      digitChar_toNat (h d (List.mem_cons_self d ds)), valOfDigits,
      List.length_cons]
    ring

theorem pyInt?_pyStr (n : Nat) : pyInt? (pyStr n) = some n := by
  unfold pyInt? pyStr
  rw [if_pos ?_]
  · rw [foldl_digits (natDigitsRev n) (natDigitsRev_lt_ten n) 0,
      valOfDigits_natDigitsRev]
    simp
  · constructor
    · simp [natDigitsRev_ne_nil]
    · rw [List.all_eq_true]
      intro c hc
      rw [List.mem_map] at hc
      obtain ⟨d, hd, rfl⟩ := hc
      exact digitChar_isDigit (natDigitsRev_lt_ten n d (List.mem_reverse.mp hd))

theorem pyStr_inj {m n : Nat} (h : pyStr m = pyStr n) : m = n := by
  have := congrArg pyInt? h
  rw [pyInt?_pyStr, pyInt?_pyStr] at this
  exact Option.some.inj this

theorem pyStr_length_pos (n : Nat) : 0 < (pyStr n).length := by
  show 0 < (pyStr n).data.length
  unfold pyStr
  simp only [List.length_map, List.length_reverse]
  exact List.length_pos.mpr (natDigitsRev_ne_nil n)

theorem natDigitsRev_length_le : ∀ (k : Nat), 1 ≤ k → ∀ (n : Nat), n < 10 ^ k →
    (natDigitsRev n).length ≤ k := by
  intro k
  induction k with
  | zero => omega
  | succ k ih =>
    intro _ n hn
    unfold natDigitsRev
    split
    · simp
    · rename_i h10
      simp only [List.length_cons]
      have hk : 1 ≤ k := by
        by_contra hcon
        have hk0 : k = 0 := by omega
        rw [hk0, pow_one] at hn
        omega
      have hdiv : n / 10 < 10 ^ k := by
        rw [Nat.div_lt_iff_lt_mul (by omega : 0 < 10)]
        calc n < 10 ^ (k + 1) := hn
          _ = 10 ^ k * 10 := by ring
      have := ih hk (n / 10) hdiv
      omega

theorem pyStr_ne_chunks (n : Nat) : pyStr n ≠ "chunks" := by
  intro h
  have hd : (natDigitsRev n).reverse.map Nat.digitChar = ("chunks" : String).data :=
    congrArg String.data h
  obtain ⟨d, ds, hds⟩ := List.exists_cons_of_ne_nil
    (fun hcon => natDigitsRev_ne_nil n (List.reverse_eq_nil_iff.mp hcon))
  rw [hds, List.map_cons] at hd
  have hc : ("chunks" : String).data = 'c' :: ("hunks" : String).data := rfl
  rw [hc] at hd
  have hdc : Nat.digitChar d = 'c' := (List.cons_eq_cons.mp hd).1
  have hlt : d < 10 :=
    natDigitsRev_lt_ten n d (List.mem_reverse.mp (hds ▸ List.mem_cons_self d ds))
  interval_cases d <;> exact absurd hdc (by decide)

/-! ### Chunk-key disjointness -/

theorem chunkKey_inj (key : String) {i j : Nat} (h : chunkKey key i = chunkKey key j) :
    i = j := by
  unfold chunkKey at h
  by_cases hi : i = 0 <;> by_cases hj : j = 0
  · omega
  · rw [if_pos hi, if_neg hj] at h
    have hlen := congrArg String.length h
    rw [String.length_append, String.length_append] at hlen
    have := pyStr_length_pos j
    have h2 : ("__" : String).length = 2 := rfl
    omega
  · rw [if_neg hi, if_pos hj] at h
    have hlen := congrArg String.length h
    rw [String.length_append, String.length_append] at hlen
    have := pyStr_length_pos i
    have h2 : ("__" : String).length = 2 := rfl
    omega
  · rw [if_neg hi, if_neg hj] at h
    have hd := congrArg String.data h
    rw [String.data_append, String.data_append, String.data_append,
      String.data_append, List.append_assoc, List.append_assoc] at hd
    have hcancel := List.append_cancel_left hd
    have hcancel2 := List.append_cancel_left hcancel
    exact pyStr_inj (String.ext hcancel2)

theorem chunkKey_ne_chunksKey (key : String) (i : Nat) :
    chunkKey key i ≠ key ++ "__chunks" := by
  unfold chunkKey
  by_cases hi : i = 0
  · rw [if_pos hi]
    intro h
    have hlen := congrArg String.length h
    rw [String.length_append] at hlen
    have h8 : ("__chunks" : String).length = 8 := rfl
    omega
  · rw [if_neg hi]
    intro h
    have hd := congrArg String.data h
    rw [String.data_append, String.data_append, String.data_append,
      List.append_assoc] at hd
    have hcancel := List.append_cancel_left hd
    have h2 : ("__chunks" : String).data = ("__" : String).data ++ ("chunks" : String).data := rfl
    rw [h2] at hcancel
    have hcancel2 := List.append_cancel_left hcancel
    exact pyStr_ne_chunks i (String.ext hcancel2)

/-! ### Chunk-list structure -/

theorem chunksOf_chunk_le (cs : List Char) : ∀ c ∈ chunksOf cs, c.length ≤ 1900 := by
  intro c hc
  unfold chunksOf at hc
  rw [List.mem_map] at hc
  obtain ⟨i, -, rfl⟩ := hc
  exact List.length_take_le _ _

theorem chunksOf_length_pos (cs : List Char) : 0 < (chunksOf cs).length := by
  unfold chunksOf
  rw [List.length_map, List.length_range]
  omega

theorem chunksOf_length_le (cs : List Char) : (chunksOf cs).length ≤ max cs.length 1 := by
  unfold chunksOf
  rw [List.length_map, List.length_range]
  omega

theorem chunksOf_small {cs : List Char} (h : cs.length ≤ 1900) : chunksOf cs = [cs] := by
  unfold chunksOf
  have h1 : (max cs.length 1 + 1899) / 1900 = 1 := by omega
  rw [h1]
  simp only [List.range_succ, List.range_zero, List.nil_append, List.map_cons,
    List.map_nil]
  unfold chunkAt
  rw [Nat.mul_zero, List.drop_zero, List.take_of_length_le h]

theorem chunksOf_large {cs : List Char} (h : 1900 < cs.length) :
    chunksOf cs = cs.take 1900 :: chunksOf (cs.drop 1900) := by
  unfold chunksOf
  have h1 : max cs.length 1 = cs.length := by omega
  have h2 : max (cs.drop 1900).length 1 = cs.length - 1900 := by
    rw [List.length_drop]
    omega
  rw [h1, h2]
  have h3 : (cs.length + 1899) / 1900 = (cs.length - 1900 + 1899) / 1900 + 1 := by
    omega
  rw [h3, List.range_succ_eq_map, List.map_cons, List.map_map]
  congr 1
  apply List.map_congr_left
  intro i _
  show List.take 1900 (List.drop (1900 * (i + 1)) cs) =
    List.take 1900 (List.drop (1900 * i) (List.drop 1900 cs))
  rw [List.drop_drop]
  congr 2
  omega

theorem flatten_chunksOf_aux : ∀ (N : Nat) (cs : List Char), cs.length ≤ N →
    (chunksOf cs).flatten = cs := by
  intro N
  induction N with
  | zero =>
    intro cs h
    rw [chunksOf_small (by omega)]
    simp
  | succ N ih =>
    intro cs h
    by_cases h19 : cs.length ≤ 1900
    · rw [chunksOf_small h19]
      simp
    · rw [chunksOf_large (by omega), List.flatten_cons,
        ih (cs.drop 1900) (by rw [List.length_drop]; omega)]
      exact List.take_append_drop 1900 cs

theorem flatten_chunksOf (cs : List Char) : (chunksOf cs).flatten = cs :=
  flatten_chunksOf_aux cs.length cs (le_refl _)

theorem chunksOf_getD {cs : List Char} {i : Nat} (hi : i < (chunksOf cs).length) :
    (chunksOf cs).getD i [] = chunkAt cs i := by
  unfold chunksOf at hi ⊢
  rw [List.length_map, List.length_range] at hi
  rw [List.getD_eq_getElem?_getD, List.getElem?_map, List.getElem?_range hi]
  rfl

theorem range_map_getD (l : List α) (d : α) :
    (List.range l.length).map (fun i => l.getD i d) = l := by
  induction l with
  | nil => rfl
  | cons x xs ih =>
    rw [List.length_cons, List.range_succ_eq_map, List.map_cons, List.map_map]
    congr 1

/-! ### Reading back the written chunks -/

theorem set_config_value_same (s : ConfigStore) (k v : String) :
    set_config_value s k v k = some ⟨v.data.take 2000⟩ := by
  unfold set_config_value
  rw [if_pos rfl]

theorem set_config_value_ne (s : ConfigStore) (k v q : String) (h : q ≠ k) :
    set_config_value s k v q = s q := by
  unfold set_config_value
  rw [if_neg h]

theorem writeChunks_ne (key : String) : ∀ (chunks : List (List Char))
    (s : ConfigStore) (start : Nat) (q : String),
    (∀ j, j < chunks.length → q ≠ chunkKey key (start + j)) →
    writeChunks s key chunks start q = s q := by
  intro chunks
  induction chunks with
  | nil =>
    intro s start q _
    rfl
  | cons c rest ih =>
    intro s start q h
    show writeChunks (set_config_value s (chunkKey key start) ⟨c⟩) key rest (start + 1) q = s q
    have h1 : ∀ j, j < rest.length → q ≠ chunkKey key (start + 1 + j) := by
      intro j hj
      have := h (j + 1) (by simp only [List.length_cons]; omega)
      rwa [show start + (j + 1) = start + 1 + j by omega] at this
    rw [ih _ _ _ h1]
    refine set_config_value_ne _ _ _ _ ?_
    have := h 0 (by simp)
    rwa [Nat.add_zero] at this

theorem writeChunks_get (key : String) : ∀ (chunks : List (List Char))
    (s : ConfigStore) (start i : Nat), i < chunks.length →
    writeChunks s key chunks start (chunkKey key (start + i)) =
      some ⟨(chunks.getD i []).take 2000⟩ := by
  intro chunks
  induction chunks with
  | nil =>
    intro s start i hi
    simp at hi
  | cons c rest ih =>
    intro s start i hi
    show writeChunks (set_config_value s (chunkKey key start) ⟨c⟩) key rest (start + 1)
      (chunkKey key (start + i)) = _
    cases i with
    | zero =>
      have hne : ∀ j, j < rest.length →
          chunkKey key (start + 0) ≠ chunkKey key (start + 1 + j) := by
        intro j hj hcon
        have := chunkKey_inj key hcon
        omega
      rw [writeChunks_ne key rest _ _ _ hne, Nat.add_zero]
      exact set_config_value_same _ _ _
    | succ i' =>
      have hi' : i' < rest.length := by simpa using hi
      rw [show start + (i' + 1) = start + 1 + i' by omega]
      exact ih _ _ i' hi'

theorem set_large_chunksKey (s : ConfigStore) (key value : String) :
    set_config_value_large s key value (key ++ "__chunks") =
      some ⟨(pyStr (chunksOf value.data).length).data.take 2000⟩ := by
  unfold set_config_value_large
  exact set_config_value_same _ _ _

theorem set_large_chunk (s : ConfigStore) (key value : String) (i : Nat)
    (hi : i < (chunksOf value.data).length) :
    set_config_value_large s key value (chunkKey key i) =
      some ⟨((chunksOf value.data).getD i []).take 2000⟩ := by
  unfold set_config_value_large
  rw [set_config_value_ne _ _ _ _ (chunkKey_ne_chunksKey key i)]
  have := writeChunks_get key (chunksOf value.data) s 0 i hi
  rwa [Nat.zero_add] at this

theorem foldl_string_append (l : List (List Char)) : ∀ (a : List Char),
    (l.map String.mk).foldl (· ++ ·) ⟨a⟩ = ⟨a ++ l.flatten⟩ := by
  induction l with
  | nil =>
    intro a
    rw [List.map_nil, List.foldl_nil, List.flatten_nil, List.append_nil]
  | cons c l ih =>
    intro a
    rw [List.map_cons, List.foldl_cons]
    show (l.map String.mk).foldl (· ++ ·) ⟨a ++ c⟩ = _
    rw [ih, List.flatten_cons, List.append_assoc]

theorem stringJoin_mk (l : List (List Char)) :
    String.join (l.map String.mk) = ⟨l.flatten⟩ := by
  show (l.map String.mk).foldl (· ++ ·) "" = _
  have := foldl_string_append l []
  simpa using this

/-- **C8.** For every string value (of any realistic size: the hypothesis
only excludes values of length ≥ 10^2000, where the decimal chunk count
itself would overflow the 2000-character field truncation), storing it with
`set_config_value_large` and reading it back with `get_config_value_large`
returns the original string; every chunk written has length at most 1900
characters; and the sibling `key__chunks` field records the chunk count. -/
theorem chunked_storage_roundtrip (s : ConfigStore) (key value dflt : String)
    (hlen : value.data.length < 10 ^ 2000) :
    get_config_value_large (set_config_value_large s key value) key dflt = value ∧
    (∀ c ∈ chunksOf value.data, c.length ≤ 1900) ∧
    set_config_value_large s key value (key ++ "__chunks") =
      some (pyStr (chunksOf value.data).length) := by
  have hNpos : 0 < (chunksOf value.data).length := chunksOf_length_pos value.data
  have hNlt : (chunksOf value.data).length < 10 ^ 2000 := by
    have h1 : 1 < 10 ^ 2000 := Nat.one_lt_pow (by norm_num) (by norm_num)
    exact lt_of_le_of_lt (chunksOf_length_le value.data) (max_lt hlen h1)
  have hdig : (pyStr (chunksOf value.data).length).data.length ≤ 2000 := by
    unfold pyStr
    simp only [List.length_map, List.length_reverse]
    exact natDigitsRev_length_le 2000 (by norm_num) _ hNlt
  have htrunc : (⟨(pyStr (chunksOf value.data).length).data.take 2000⟩ : String) =
      pyStr (chunksOf value.data).length := by
    rw [List.take_of_length_le hdig]
  have hchunksKey : set_config_value_large s key value (key ++ "__chunks") =
      some (pyStr (chunksOf value.data).length) := by
    rw [set_large_chunksKey, htrunc]
  refine ⟨?_, chunksOf_chunk_le value.data, hchunksKey⟩
  unfold get_config_value_large
  rw [hchunksKey]
  dsimp only
  rw [pyInt?_pyStr, Option.getD_some, if_neg (by omega)]
  have hread : ∀ i ∈ List.range (chunksOf value.data).length,
      ((set_config_value_large s key value) (chunkKey key i)).getD "" =
        String.mk ((chunksOf value.data).getD i []) := by
    intro i hi
    rw [List.mem_range] at hi
    rw [set_large_chunk s key value i hi, Option.getD_some]
    have hc : ((chunksOf value.data).getD i []).length ≤ 2000 := by
      rw [chunksOf_getD hi]
      have := List.length_take_le 1900 (value.data.drop (1900 * i))
      unfold chunkAt
      omega
    rw [List.take_of_length_le hc]
  rw [List.map_congr_left hread]
  have hmaps : (List.range (chunksOf value.data).length).map
      (fun i => String.mk ((chunksOf value.data).getD i [])) =
      (chunksOf value.data).map String.mk := by
    rw [show (fun i => String.mk ((chunksOf value.data).getD i [])) =
      String.mk ∘ (fun i => (chunksOf value.data).getD i []) from rfl,
      ← List.map_map, range_map_getD]
  rw [hmaps, stringJoin_mk, flatten_chunksOf]

/-- Witness for C8 at a concrete value and store. -/
theorem chunked_storage_roundtrip_witness :
    ("hello" : String).data.length < 10 ^ 2000 ∧
    get_config_value_large (set_config_value_large emptyStore "k" "hello") "k" "" =
      "hello" :=
  have hl : ("hello" : String).data.length < 10 ^ 2000 :=
    lt_of_lt_of_le (by norm_num)
      (Nat.le_self_pow (by norm_num) 10)
  ⟨hl, (chunked_storage_roundtrip emptyStore "k" "hello" "" hl).1⟩

end AgentFarm
